import Mathlib

/-!
Verification of the dependency-graph engine of `vite-plugin-galaxy`.

The development shallowly embeds the core of the plugin:

* `src/core/graph.ts` — `applyAlias`, `shouldExclude`, `calculateDepths`,
  `classifyNodeTypes`, `generateGraph`;
* the ghost-package detector `detectGhostPkgs`;
* the dev-server file-watcher rebuild condition.

JavaScript strings are modelled as Lean `String` (a list of characters);
the JS string operations used by the code (`includes`, `startsWith`,
`slice`/first-occurrence `replace`, `length`) are modelled on the
character list.  External collaborators are passed in explicitly:
`rel` models `path.relative(root, ·)`, `stat` models `fs.statSync`
(`none` on failure), regular-expression tests are modelled as boolean
predicates, and the result of reading and parsing `package.json` is an
`Except` value (`Except.error` when the file is absent or unparsable,
exactly where `JSON.parse(readFileSync(...))` would throw).
-/

/-- JS `s.includes(sub)`: substring containment test. -/
def strIncludes (s sub : String) : Bool := decide (sub.data <:+: s.data)

/-- JS `s.startsWith(p)`. -/
def strStartsWith (s p : String) : Bool := p.data.isPrefixOf s.data

/-- Suffix of a string after dropping `n` characters (JS `s.slice(n)`). -/
def strDrop (s : String) (n : Nat) : String := ⟨s.data.drop n⟩

/-- JS `s.length` (character count; the sources only ever measure it on
plain ASCII alias keys). -/
def strLen (s : String) : Nat := s.data.length

/-- Node of the dependency graph (`client/types.ts`, `GraphNode`).
`type` and `team` are optional in the TypeScript interface and absent
(`none`) until assigned. -/
structure GraphNode where
  id : String
  size : Nat
  mtime : Nat
  depth : Nat
  type : Option String := none
  team : Option String := none
  deriving Repr, DecidableEq

/-- Edge of the dependency graph: `source` imports `target`. -/
structure GraphEdge where
  source : String
  target : String
  deriving Repr, DecidableEq

/-- The published snapshot (`client/types.ts`, `GraphJSON`). -/
structure GraphJSON where
  nodes : List GraphNode
  edges : List GraphEdge
  ghosts : List String
  deriving Repr, DecidableEq

/-- The parsed project manifest (`package.json`): the two declared
dependency maps, kept as ordered association lists. -/
structure Manifest where
  dependencies : List (String × String) := []
  devDependencies : List (String × String) := []
  deriving Repr, DecidableEq

/-- Result of `detectGhostPkgs`. -/
structure GhostResult where
  packageJson : Manifest
  ghosts : List String
  deriving Repr, DecidableEq

/-- A custom classification rule (`client/types.ts`, `TypeRule`): the
regular-expression `pattern` is modelled as a boolean test on the id. -/
structure TypeRule where
  pattern : String → Bool
  type : String

/-- The plugin options consumed by the graph engine
(`client/types.ts`, `GalaxyOptions`): `exclude` regular expressions are
modelled as boolean tests, `alias` is the ordered entry list of the
record, `maxDepth` models `options.graph?.maxDepth` (`none` = the
`Infinity` default) and `customTypeRules` models
`options.classification?.customTypeRules`.  The `alias` option is
spelled `aliases` here because `alias` is a Lean keyword. -/
structure GalaxyOptions where
  exclude : List (String → Bool) := []
  aliases : List (String × String) := []
  maxDepth : Option Nat := none
  customTypeRules : List TypeRule := []

/-- One module of the host registry: its raw id and, when
`ctx.getModuleInfo` returns an info object, its `importedIds`. -/
structure RegistryEntry where
  id : String
  info : Option (List String)
  deriving Repr

/-- `applyAlias` (graph.ts): the first alias entry whose key is a
leading match of the id rewrites it; `nodeId.replace(key, value)`
replaces the first occurrence of `key`, which is the leading one
because of the `startsWith` guard. -/
def applyAlias (nodeId : String) (al : List (String × String)) : String :=
  match al with
  | [] => nodeId
  | (key, value) :: rest =>
    if strStartsWith nodeId key then value ++ strDrop nodeId (strLen key)
    else applyAlias nodeId rest

/-- `shouldExclude` (graph.ts): does any exclusion pattern match? -/
def shouldExclude (nodeId : String) (exclude : List (String → Bool)) : Bool :=
  exclude.any (fun r => r nodeId)

/-- Mutable state of the depth computation: the `depthMap` record
(newest assignment first) and the `visited` set. -/
structure DfsSt where
  depthMap : List (String × Nat)
  visited : List String
  deriving Repr

/-- JS `depthMap[nodeId]`: `none` models `undefined`. -/
def lookupDepth (m : List (String × Nat)) (id : String) : Option Nat :=
  match m.find? (fun p => p.1 == id) with
  | some p => some p.2
  | none => none

/-- The dependents loop of `dfs` (graph.ts `calculateDepths`): fold the
running maximum `acc` over the dependents, querying `next` for each
dependent's depth.  A `none` depth models the JS `undefined` returned
for a node that is visited but not yet assigned: `undefined + 1` is
`NaN`, and `NaN > maxDepthVal` is false, so that dependent contributes
nothing. -/
def dfsDeps (next : String → DfsSt → Option (Option Nat × DfsSt)) :
    List GraphEdge → Nat → DfsSt → Option (Nat × DfsSt)
  | [], acc, s => some (acc, s)
  | e :: rest, acc, s =>
    match next e.source s with
    | none => none
    | some (none, s') => dfsDeps next rest acc s'
    | some (some d, s') =>
      dfsDeps next rest (if acc < d + 1 then d + 1 else acc) s'

/-- The recursive `dfs` of `calculateDepths` (graph.ts), made total by
a fuel parameter (`none` = fuel exhausted; a sufficient fuel is proved
below).  A visited node returns its cached `depthMap` entry without
recursing; an unvisited node is marked visited, its dependents (edges
targeting it) are folded, and the clamped maximum is recorded. -/
def dfs (edges : List GraphEdge) (md : Option Nat) :
    Nat → String → DfsSt → Option (Option Nat × DfsSt)
  | 0, _, _ => none
  | fuel + 1, nodeId, s =>
    if nodeId ∈ s.visited then
      some (lookupDepth s.depthMap nodeId, s)
    else
      let s1 : DfsSt := ⟨s.depthMap, nodeId :: s.visited⟩
      let deps := edges.filter (fun e => e.target == nodeId)
      if deps.isEmpty then
        some (some 0, ⟨(nodeId, 0) :: s1.depthMap, s1.visited⟩)
      else
        match dfsDeps (fun src st => dfs edges md fuel src st) deps 0 s1 with
        | none => none
        | some (m, s2) =>
          let mv := match md with
            | none => m
            | some mdv => if mdv < m then mdv else m
          some (some mv, ⟨(nodeId, mv) :: s2.depthMap, s2.visited⟩)

/-- The driving loop of `calculateDepths`: run `dfs` from every not yet
visited node. -/
def runDfs (edges : List GraphEdge) (md : Option Nat) (fuel : Nat) :
    List GraphNode → DfsSt → Option DfsSt
  | [], s => some s
  | n :: rest, s =>
    if n.id ∈ s.visited then runDfs edges md fuel rest s
    else
      match dfs edges md fuel n.id s with
      | none => none
      | some (_, s') => runDfs edges md fuel rest s'

/-- All ids the depth traversal can ever enter: the node ids (the
driving loop) and the edge sources (the recursive calls). -/
def idUniverse (nodes : List GraphNode) (edges : List GraphEdge) : List String :=
  (nodes.map GraphNode.id ++ edges.map GraphEdge.source).dedup

/-- `calculateDepths` (graph.ts), fuel-indexed: `none` only on fuel
exhaustion.  The final map writes `depthMap[node.id] || 0` into each
node's `depth` field. -/
def calculateDepthsO (nodes : List GraphNode) (edges : List GraphEdge)
    (md : Option Nat) : Option (List GraphNode) :=
  match runDfs edges md ((idUniverse nodes edges).length + 1) nodes ⟨[], []⟩ with
  | none => none
  | some s =>
    some (nodes.map (fun n =>
      { n with depth := (lookupDepth s.depthMap n.id).getD 0 }))

/-- `calculateDepths` (graph.ts).  The fuel `|idUniverse| + 1` is
proved sufficient below (`calculateDepthsO_isSome`), so the `[]`
default of `getD` is dead code and the function agrees with the
fuel-free JS recursion. -/
def calculateDepths (nodes : List GraphNode) (edges : List GraphEdge)
    (md : Option Nat) : List GraphNode :=
  (calculateDepthsO nodes edges md).getD []

/-- The custom-rule loop of `classifyNodeTypes` (graph.ts): first
matching rule wins, returning its category verbatim. -/
def applyRules (id : String) : List TypeRule → Option String
  | [] => none
  | r :: rest => if r.pattern id then some r.type else applyRules id rest

/-- The built-in substring heuristics of `classifyNodeTypes`
(graph.ts), including the two legacy branches that map API/server and
router ids to `"other"`. -/
def builtinType (id : String) : String :=
  if strIncludes id "util" || strIncludes id "utils" then "util"
  else if strIncludes id "ui" || strIncludes id "component" then "ui"
  else if strIncludes id "lib" || strIncludes id "library" then "lib"
  else if strIncludes id "api" || strIncludes id "server" then "other"
  else if strIncludes id "router" || strIncludes id "route" then "other"
  else "other"

/-- `classifyNodeTypes` (graph.ts). -/
def classifyNodeTypes (nodes : List GraphNode) (rules : List TypeRule) :
    List GraphNode :=
  nodes.map (fun node =>
    match applyRules node.id rules with
    | some t => { node with type := some t }
    | none => { node with type := some (builtinType node.id) })

/-- The package-root extraction of `detectGhostPkgs`: the regular
expression `^([^@\x2f]+|@[^\x2f]+\x2f[^\x2f]+)(\x2f|$)` applied to an
imported id, returning capture group 1.  The first alternative is a
nonempty run of characters other than `@` and `/` that must be
followed by `/` or the end of the string; the second matches a scoped
`@scope/name` pair, the scope and name being nonempty slash-free runs,
again followed by `/` or the end. -/
def pkgRoot (cs : List Char) : Option (List Char) :=
  match cs with
  | [] => none
  | c :: rest =>
    if c = '@' then
      match rest.span (fun x => !(x == '/')) with
      | ([], _) => none
      | (seg1, '/' :: r2) =>
        match r2.span (fun x => !(x == '/')) with
        | ([], _) => none
        | (seg2, _) => some ('@' :: seg1 ++ '/' :: seg2)
      | (_, _) => none
    else
      match cs.span (fun x => !(x == '@') && !(x == '/')) with
      | ([], _) => none
      | (seg, []) => some seg
      | (seg, '/' :: _) => some seg
      | (_, _) => none

/-- The merged declared-dependency name set of `detectGhostPkgs`: the
keys of `dependencies` followed by the keys of `devDependencies`. -/
def declaredNames (pkg : Manifest) : List String :=
  pkg.dependencies.map Prod.fst ++ pkg.devDependencies.map Prod.fst

/-- The filter predicate of `detectGhostPkgs`: the id's extracted
package root exists and is not declared. -/
def isGhostId (declared : List String) (id : String) : Bool :=
  match pkgRoot id.data with
  | some root => !(declared.contains (String.mk root))
  | none => false

/-- `detectGhostPkgs` (ghost module): parse the manifest — an absent
or unparsable `package.json` makes `JSON.parse(readFileSync(...))`
throw, modelled by the incoming `Except.error` — and keep every
imported id whose package root is undeclared. -/
def detectGhostPkgs (manifestSrc : Except String Manifest)
    (importedIds : List String) : Except String GhostResult := do
  let pkg ← manifestSrc
  let declared := declaredNames pkg
  let ghosts := importedIds.filter (fun id => isGhostId declared id)
  return ⟨pkg, ghosts⟩

/-- The module loop of `generateGraph` (graph.ts): normalize each id
(`rel` models `relative(ctx.config.root, ·)`), apply aliases, drop
excluded and already seen ids, record a node with `stat` metadata
(0/0 when `statSync` throws), and emit an edge per import target that
survives the identical normalization and exclusion filter. -/
def buildNodesEdges (rel : String → String) (stat : String → Option (Nat × Nat))
    (al : List (String × String)) (exclude : List (String → Bool)) :
    List RegistryEntry → List String → List GraphNode × List GraphEdge
  | [], _ => ([], [])
  | entry :: rest, seen =>
    match entry.info with
    | none => buildNodesEdges rel stat al exclude rest seen
    | some importedIds =>
      let shortId := applyAlias (rel entry.id) al
      if shouldExclude shortId exclude then
        buildNodesEdges rel stat al exclude rest seen
      else if shortId ∈ seen then
        buildNodesEdges rel stat al exclude rest seen
      else
        let node : GraphNode :=
          match stat entry.id with
          | some (sz, mt) => { id := shortId, size := sz, mtime := mt, depth := 0 }
          | none => { id := shortId, size := 0, mtime := 0, depth := 0 }
        let newEdges := importedIds.filterMap (fun dep =>
          let targetId := applyAlias (rel dep) al
          if shouldExclude targetId exclude then none
          else some ⟨shortId, targetId⟩)
        let (ns, es) := buildNodesEdges rel stat al exclude rest (shortId :: seen)
        (node :: ns, newEdges ++ es)

/-- `generateGraph` (graph.ts): build nodes and edges, annotate depths
and types, detect ghost packages over the raw module ids, and
alias-substitute and exclusion-filter the ghosts.  A failing manifest
read rejects the whole promise. -/
def generateGraph (rel : String → String) (stat : String → Option (Nat × Nat))
    (registry : List RegistryEntry) (options : GalaxyOptions)
    (manifestSrc : Except String Manifest) : Except String GraphJSON := do
  let modules := registry.map RegistryEntry.id
  let (nodes, edges) :=
    buildNodesEdges rel stat options.aliases options.exclude registry []
  let nodesWithDepth := calculateDepths nodes edges options.maxDepth
  let nodesWithType := classifyNodeTypes nodesWithDepth options.customTypeRules
  let gres ← detectGhostPkgs manifestSrc modules
  let filteredGhosts :=
    (gres.ghosts.map (fun g => applyAlias g options.aliases)).filter
      (fun g => !(shouldExclude g options.exclude))
  return ⟨nodesWithType, edges, filteredGhosts⟩

/-- The file-watcher rebuild condition of `setupDevServer`
(dev-server.ts): `filePath.includes('.js') ||
filePath.includes('.ts') || filePath.includes('.vue')`. -/
def shouldRebuildFile (filePath : String) : Bool :=
  strIncludes filePath ".js" || strIncludes filePath ".ts" || strIncludes filePath ".vue"

/-- Modelled from the spec: the file extension of a path — the
characters after the last dot, `none` when the path has no dot.  Used
only to state the spec's "recognized source-file extension set"
side of the watcher claim. -/
def extOf (p : String) : Option String :=
  let rev := p.data.reverse
  if '.' ∈ rev then some ⟨(rev.takeWhile (fun c => !(c == '.'))).reverse⟩
  else none

/-- The built-in classification heuristics as the spec states them:
utility before UI before library, every remaining id getting the
default category.  Spec-side definition for the refinement claim about
`classifyNodeTypes`. -/
def specBuiltinHeuristic (id : String) : String :=
  if strIncludes id "util" || strIncludes id "utils" then "util"
  else if strIncludes id "ui" || strIncludes id "component" then "ui"
  else if strIncludes id "lib" || strIncludes id "library" then "lib"
  else "other"

/-- Termination measure of the depth traversal: how many ids of the
universe `u` are not yet visited. -/
def unvisitedCount (u visited : List String) : Nat :=
  (u.filter (fun x => decide (x ∉ visited))).length

/-- Invariant of the `depthMap` record during depth computation: every
recorded depth is clamped by the configured maximum, and an id targeted
by no edge is only ever recorded with depth 0. -/
def DepthInv (edges : List GraphEdge) (md : Option Nat)
    (m : List (String × Nat)) : Prop :=
  ∀ p ∈ m, (∀ mdv, md = some mdv → p.2 ≤ mdv) ∧
    ((∀ e ∈ edges, e.target ≠ p.1) → p.2 = 0)

theorem unvisitedCount_le (u visited : List String) :
    unvisitedCount u visited ≤ u.length :=
  List.length_filter_le _ _

theorem unvisitedCount_mono (u : List String) {v v' : List String}
    (h : ∀ a, a ∈ v → a ∈ v') : unvisitedCount u v' ≤ unvisitedCount u v :=
  List.Sublist.length_le (List.monotone_filter_right u (fun a ha => by
    simp only [decide_eq_true_eq] at ha ⊢
    exact fun hv => ha (h a hv)))

theorem unvisitedCount_cons_lt (u : List String) {x : String} {v : List String}
    (hxu : x ∈ u) (hxv : x ∉ v) :
    unvisitedCount u (x :: v) < unvisitedCount u v := by
  induction u with
  | nil => cases hxu
  | cons y u ih =>
    simp only [unvisitedCount, List.filter_cons] at *
    by_cases hyx : y = x
    · subst hyx
      have h1 : (decide (y ∉ y :: v)) = false := by simp
      have h2 : (decide (y ∉ v)) = true := by simpa using hxv
      rw [h1, h2]
      have hle := @unvisitedCount_mono u v (y :: v)
        (fun a ha => List.mem_cons_of_mem _ ha)
      simp only [unvisitedCount] at hle
      simpa using Nat.lt_succ_of_le hle
    · have hxu' : x ∈ u := List.mem_of_ne_of_mem (fun h => hyx h.symm) hxu
      by_cases hy : y ∈ v
      · have h1 : (decide (y ∉ x :: v)) = false := by simp [hy]
        have h2 : (decide (y ∉ v)) = false := by simp [hy]
        rw [h1, h2]; exact ih hxu'
      · have h1 : (decide (y ∉ x :: v)) = true := by simp [hy, hyx]
        have h2 : (decide (y ∉ v)) = true := by simp [hy]
        rw [h1, h2]
        simpa using Nat.succ_lt_succ (ih hxu')

theorem dfsDeps_total (u : List String)
    (next : String → DfsSt → Option (Option Nat × DfsSt)) (k : Nat)
    (hnext : ∀ src st, src ∈ u → unvisitedCount u st.visited < k →
      ∃ r st', next src st = some (r, st') ∧ ∀ a ∈ st.visited, a ∈ st'.visited) :
    ∀ deps acc s, (∀ e ∈ deps, e.source ∈ u) → unvisitedCount u s.visited < k →
      ∃ m s', dfsDeps next deps acc s = some (m, s') ∧
        ∀ a ∈ s.visited, a ∈ s'.visited := by
  intro deps
  induction deps with
  | nil => intro acc s _ _; exact ⟨acc, s, rfl, fun a ha => ha⟩
  | cons e rest ih =>
    intro acc s hdeps hcnt
    obtain ⟨r, st', hnx, hgrow⟩ :=
      hnext e.source s (hdeps e (List.mem_cons_self e rest)) hcnt
    have hcnt' : unvisitedCount u st'.visited < k :=
      lt_of_le_of_lt (unvisitedCount_mono u hgrow) hcnt
    have hdeps' : ∀ e' ∈ rest, e'.source ∈ u :=
      fun e' he' => hdeps e' (List.mem_cons_of_mem _ he')
    cases r with
    | none =>
      obtain ⟨m, s', hrec, hgrow'⟩ := ih acc st' hdeps' hcnt'
      exact ⟨m, s', by simp [dfsDeps, hnx, hrec], fun a ha => hgrow' a (hgrow a ha)⟩
    | some d =>
      obtain ⟨m, s', hrec, hgrow'⟩ :=
        ih (if acc < d + 1 then d + 1 else acc) st' hdeps' hcnt'
      exact ⟨m, s', by simp [dfsDeps, hnx, hrec], fun a ha => hgrow' a (hgrow a ha)⟩

theorem dfs_total (edges : List GraphEdge) (md : Option Nat) (u : List String)
    (hu : ∀ e ∈ edges, e.source ∈ u) :
    ∀ fuel nodeId s, nodeId ∈ u → unvisitedCount u s.visited < fuel →
      ∃ r s', dfs edges md fuel nodeId s = some (r, s') ∧
        ∀ a ∈ s.visited, a ∈ s'.visited := by
  intro fuel
  induction fuel with
  | zero => intro nodeId s _ h; omega
  | succ k ih =>
    intro nodeId s hn hcnt
    by_cases hv : nodeId ∈ s.visited
    · exact ⟨lookupDepth s.depthMap nodeId, s, by simp [dfs, hv], fun a ha => ha⟩
    · have hlt : unvisitedCount u (nodeId :: s.visited) < unvisitedCount u s.visited :=
        unvisitedCount_cons_lt u hn hv
      have hk : unvisitedCount u (nodeId :: s.visited) < k := by omega
      by_cases hd : (edges.filter (fun e => e.target == nodeId)).isEmpty
      · refine ⟨some 0, ⟨(nodeId, 0) :: s.depthMap, nodeId :: s.visited⟩,
          by simp [dfs, hv, hd], fun a ha => List.mem_cons_of_mem _ ha⟩
      · obtain ⟨m, s2, hfold, hgrow⟩ := dfsDeps_total u
          (fun src st => dfs edges md k src st) k
          (fun src st hs hc => ih src st hs hc)
          (edges.filter (fun e => e.target == nodeId)) 0
          ⟨s.depthMap, nodeId :: s.visited⟩
          (fun e he => hu e (List.mem_filter.1 he).1) hk
        cases md with
        | none =>
          exact ⟨some m, ⟨(nodeId, m) :: s2.depthMap, s2.visited⟩,
            by simp [dfs, hv, hd, hfold], fun a ha => hgrow a (List.mem_cons_of_mem _ ha)⟩
        | some mdv =>
          exact ⟨some (if mdv < m then mdv else m),
            ⟨(nodeId, if mdv < m then mdv else m) :: s2.depthMap, s2.visited⟩,
            by simp [dfs, hv, hd, hfold], fun a ha => hgrow a (List.mem_cons_of_mem _ ha)⟩

theorem runDfs_total (edges : List GraphEdge) (md : Option Nat) (u : List String)
    (hu : ∀ e ∈ edges, e.source ∈ u) :
    ∀ ns s, (∀ n ∈ ns, n.id ∈ u) →
      ∃ s', runDfs edges md (u.length + 1) ns s = some s' := by
  intro ns
  induction ns with
  | nil => intro s _; exact ⟨s, rfl⟩
  | cons n rest ih =>
    intro s hns
    by_cases hv : n.id ∈ s.visited
    · obtain ⟨s', h⟩ := ih s (fun m hm => hns m (.tail _ hm))
      exact ⟨s', by simp [runDfs, hv, h]⟩
    · obtain ⟨r, st', hd, _⟩ := dfs_total edges md u hu (u.length + 1) n.id s
        (hns n (.head _)) (Nat.lt_succ_of_le (unvisitedCount_le u s.visited))
      obtain ⟨s', h⟩ := ih st' (fun m hm => hns m (.tail _ hm))
      exact ⟨s', by simp [runDfs, hv, hd, h]⟩

theorem calculateDepthsO_isSome (nodes : List GraphNode) (edges : List GraphEdge)
    (md : Option Nat) : (calculateDepthsO nodes edges md).isSome = true := by
  obtain ⟨s', h⟩ := runDfs_total edges md (idUniverse nodes edges)
    (fun e he => List.mem_dedup.2 (List.mem_append_right _ (List.mem_map_of_mem _ he)))
    nodes ⟨[], []⟩
    (fun n hn => List.mem_dedup.2 (List.mem_append_left _ (List.mem_map_of_mem _ hn)))
  simp [calculateDepthsO, h]

theorem calculateDepths_eq_map (nodes : List GraphNode) (edges : List GraphEdge)
    (md : Option Nat) : ∃ f : String → Nat,
    calculateDepths nodes edges md =
      nodes.map (fun n => { n with depth := f n.id }) := by
  cases hrun : runDfs edges md ((idUniverse nodes edges).length + 1) nodes ⟨[], []⟩ with
  | none =>
    exact absurd (calculateDepthsO_isSome nodes edges md)
      (by simp [calculateDepthsO, hrun])
  | some s =>
    exact ⟨fun i => (lookupDepth s.depthMap i).getD 0,
      by simp [calculateDepths, calculateDepthsO, hrun]⟩

theorem calculateDepths_map_id (nodes : List GraphNode) (edges : List GraphEdge)
    (md : Option Nat) :
    (calculateDepths nodes edges md).map GraphNode.id = nodes.map GraphNode.id := by
  obtain ⟨f, hf⟩ := calculateDepths_eq_map nodes edges md
  rw [hf, List.map_map]
  rfl

theorem classifyNodeTypes_map_id (nodes : List GraphNode) (rules : List TypeRule) :
    (classifyNodeTypes nodes rules).map GraphNode.id = nodes.map GraphNode.id := by
  unfold classifyNodeTypes
  rw [List.map_map]
  refine List.map_congr_left (fun n _ => ?_)
  simp only [Function.comp_apply]
  cases applyRules n.id rules <;> rfl

theorem buildNodesEdges_edge_source (rel : String → String)
    (stat : String → Option (Nat × Nat)) (al : List (String × String))
    (exclude : List (String → Bool)) :
    ∀ registry seen e, e ∈ (buildNodesEdges rel stat al exclude registry seen).2 →
      e.source ∈ (buildNodesEdges rel stat al exclude registry seen).1.map GraphNode.id := by
  intro registry
  induction registry with
  | nil => intro seen e he; simp [buildNodesEdges] at he
  | cons entry rest ih =>
    intro seen e he
    cases hinfo : entry.info with
    | none =>
      rw [show buildNodesEdges rel stat al exclude (entry :: rest) seen =
        buildNodesEdges rel stat al exclude rest seen by
          simp [buildNodesEdges, hinfo]] at he ⊢
      exact ih seen e he
    | some importedIds =>
      by_cases hexc : shouldExclude (applyAlias (rel entry.id) al) exclude
      · rw [show buildNodesEdges rel stat al exclude (entry :: rest) seen =
          buildNodesEdges rel stat al exclude rest seen by
            simp [buildNodesEdges, hinfo, hexc]] at he ⊢
        exact ih seen e he
      · by_cases hseen : applyAlias (rel entry.id) al ∈ seen
        · rw [show buildNodesEdges rel stat al exclude (entry :: rest) seen =
            buildNodesEdges rel stat al exclude rest seen by
              simp [buildNodesEdges, hinfo, hexc, hseen]] at he ⊢
          exact ih seen e he
        · simp only [buildNodesEdges, hinfo, hexc, hseen, Bool.false_eq_true,
            if_false, if_true, ite_false, ite_true] at he ⊢
          rcases List.mem_append.1 he with hnew | hrest
          · obtain ⟨dep, _, hsome⟩ := List.mem_filterMap.1 hnew
            by_cases ht : shouldExclude (applyAlias (rel dep) al) exclude
            · simp [ht] at hsome
            · simp only [ht, Bool.false_eq_true, if_false, ite_false] at hsome
              obtain rfl := Option.some.inj hsome
              cases hstat : stat entry.id <;> simp
          · cases hstat : stat entry.id <;>
              (simp only [hstat, List.map_cons, List.mem_cons]
               exact Or.inr (ih _ e hrest))

theorem dfsDeps_inv (edges : List GraphEdge) (md : Option Nat)
    (next : String → DfsSt → Option (Option Nat × DfsSt))
    (hnext : ∀ src st r st', next src st = some (r, st') →
      DepthInv edges md st.depthMap → DepthInv edges md st'.depthMap) :
    ∀ deps acc s m s', dfsDeps next deps acc s = some (m, s') →
      DepthInv edges md s.depthMap → DepthInv edges md s'.depthMap := by
  intro deps
  induction deps with
  | nil =>
    intro acc s m s' h hinv
    simp [dfsDeps] at h
    obtain ⟨-, rfl⟩ := h
    exact hinv
  | cons e rest ih =>
    intro acc s m s' h hinv
    cases hnx : next e.source s with
    | none => simp [dfsDeps, hnx] at h
    | some p =>
      obtain ⟨r, st'⟩ := p
      have hinv' := hnext e.source s r st' hnx hinv
      cases r with
      | none =>
        rw [show dfsDeps next (e :: rest) acc s = dfsDeps next rest acc st' by
          simp [dfsDeps, hnx]] at h
        exact ih acc st' m s' h hinv'
      | some d =>
        rw [show dfsDeps next (e :: rest) acc s =
            dfsDeps next rest (if acc < d + 1 then d + 1 else acc) st' by
          simp [dfsDeps, hnx]] at h
        exact ih _ st' m s' h hinv'

theorem dfs_inv (edges : List GraphEdge) (md : Option Nat) :
    ∀ fuel nodeId s r s', dfs edges md fuel nodeId s = some (r, s') →
      DepthInv edges md s.depthMap → DepthInv edges md s'.depthMap := by
  intro fuel
  induction fuel with
  | zero => intro nodeId s r s' h; simp [dfs] at h
  | succ k ih =>
    intro nodeId s r s' h hinv
    by_cases hv : nodeId ∈ s.visited
    · simp only [dfs, hv, if_true, ite_true, Option.some.injEq, Prod.mk.injEq] at h
      obtain ⟨-, rfl⟩ := h
      exact hinv
    · by_cases hd : (edges.filter (fun e => e.target == nodeId)).isEmpty
      · simp only [dfs, hv, hd, if_true, if_false, ite_true, ite_false,
          Option.some.injEq, Prod.mk.injEq] at h
        obtain ⟨-, rfl⟩ := h
        intro p hp
        rcases List.mem_cons.1 hp with rfl | hp'
        · exact ⟨fun mdv _ => Nat.zero_le mdv, fun _ => rfl⟩
        · exact hinv p hp'
      · cases hfold : dfsDeps (fun src st => dfs edges md k src st)
          (edges.filter (fun e => e.target == nodeId)) 0
          ⟨s.depthMap, nodeId :: s.visited⟩ with
        | none => simp [dfs, hv, hd, hfold] at h
        | some q =>
          obtain ⟨m, s2⟩ := q
          have hinv2 : DepthInv edges md s2.depthMap :=
            dfsDeps_inv edges md _ (fun src st r' st' hh => ih src st r' st' hh)
              _ 0 ⟨s.depthMap, nodeId :: s.visited⟩ m s2 hfold hinv
          simp only [dfs, hv, hd, hfold, if_true, if_false, ite_true, ite_false,
            Option.some.injEq, Prod.mk.injEq] at h
          obtain ⟨-, rfl⟩ := h
          intro p hp
          rcases List.mem_cons.1 hp with rfl | hp'
          · constructor
            · intro mdv hmd
              subst hmd
              simp only []
              split <;> omega
            · intro htarget
              exfalso
              apply hd
              rw [List.isEmpty_iff, List.filter_eq_nil_iff]
              intro e he
              simp only [beq_iff_eq]
              exact htarget e he
          · exact hinv2 p hp'

theorem runDfs_inv (edges : List GraphEdge) (md : Option Nat) (fuel : Nat) :
    ∀ ns s s', runDfs edges md fuel ns s = some s' →
      DepthInv edges md s.depthMap → DepthInv edges md s'.depthMap := by
  intro ns
  induction ns with
  | nil =>
    intro s s' h hinv
    simp [runDfs] at h
    subst h
    exact hinv
  | cons n rest ih =>
    intro s s' h hinv
    by_cases hv : n.id ∈ s.visited
    · rw [show runDfs edges md fuel (n :: rest) s = runDfs edges md fuel rest s by
        simp [runDfs, hv]] at h
      exact ih s s' h hinv
    · cases hd : dfs edges md fuel n.id s with
      | none => simp [runDfs, hv, hd] at h
      | some q =>
        obtain ⟨r, st'⟩ := q
        rw [show runDfs edges md fuel (n :: rest) s = runDfs edges md fuel rest st' by
          simp [runDfs, hv, hd]] at h
        exact ih st' s' h (dfs_inv edges md fuel n.id s r st' hd hinv)

theorem calculateDepths_inv (nodes : List GraphNode) (edges : List GraphEdge)
    (md : Option Nat) :
    ∀ n ∈ calculateDepths nodes edges md,
      ((∀ e ∈ edges, e.target ≠ n.id) → n.depth = 0) ∧
      (∀ mdv, md = some mdv → n.depth ≤ mdv) := by
  intro n hn
  cases hrun : runDfs edges md ((idUniverse nodes edges).length + 1) nodes ⟨[], []⟩ with
  | none =>
    exact absurd (calculateDepthsO_isSome nodes edges md)
      (by simp [calculateDepthsO, hrun])
  | some s =>
    rw [show calculateDepths nodes edges md = nodes.map (fun n =>
        { n with depth := (lookupDepth s.depthMap n.id).getD 0 }) by
      simp [calculateDepths, calculateDepthsO, hrun]] at hn
    obtain ⟨n0, -, rfl⟩ := List.mem_map.1 hn
    have hinv : DepthInv edges md s.depthMap :=
      runDfs_inv edges md _ nodes ⟨[], []⟩ s hrun (fun p hp => by simp at hp)
    cases hl : lookupDepth s.depthMap n0.id with
    | none =>
      refine ⟨fun _ => ?_, fun mdv _ => ?_⟩ <;> simp [hl]
    | some d =>
      unfold lookupDepth at hl
      cases hf : s.depthMap.find? (fun p => p.1 == n0.id) with
      | none => rw [hf] at hl; cases hl
      | some p =>
        rw [hf] at hl
        obtain rfl : p.2 = d := by cases hl; rfl
        have hpid : p.1 = n0.id := by
          have := List.find?_some hf
          simpa [beq_iff_eq] using this
        have hmem := List.mem_of_find?_eq_some hf
        obtain ⟨hbound, hzero⟩ := hinv p hmem
        simp only [Option.getD_some]
        constructor
        · intro htarget
          exact hzero (fun e he => hpid ▸ htarget e he)
        · intro mdv hmd
          exact hbound mdv hmd

theorem generateGraph_ok_eq (rel : String → String) (stat : String → Option (Nat × Nat))
    (registry : List RegistryEntry) (options : GalaxyOptions) (pkg : Manifest) :
    generateGraph rel stat registry options (Except.ok pkg) = Except.ok
      ⟨classifyNodeTypes
          (calculateDepths
            (buildNodesEdges rel stat options.aliases options.exclude registry []).1
            (buildNodesEdges rel stat options.aliases options.exclude registry []).2
            options.maxDepth)
          options.customTypeRules,
        (buildNodesEdges rel stat options.aliases options.exclude registry []).2,
        (((registry.map RegistryEntry.id).filter
            (fun id => isGhostId (declaredNames pkg) id)).map
              (fun g => applyAlias g options.aliases)).filter
          (fun g => !(shouldExclude g options.exclude))⟩ := rfl

theorem generateGraph_error_eq (rel : String → String)
    (stat : String → Option (Nat × Nat)) (registry : List RegistryEntry)
    (options : GalaxyOptions) (msg : String) :
    generateGraph rel stat registry options (Except.error msg) = Except.error msg := rfl

theorem detectGhostPkgs_ok_eq (pkg : Manifest) (importedIds : List String) :
    detectGhostPkgs (Except.ok pkg) importedIds = Except.ok
      ⟨pkg, importedIds.filter (fun id => isGhostId (declaredNames pkg) id)⟩ := rfl

theorem applyRules_eq_find (id : String) (rules : List TypeRule) :
    applyRules id rules = (rules.find? (fun r => r.pattern id)).map TypeRule.type := by
  induction rules with
  | nil => rfl
  | cons r rest ih =>
    by_cases h : r.pattern id
    · simp [applyRules, List.find?, h]
    · simp only [applyRules, List.find?, h, Bool.false_eq_true, if_false, ite_false]
      rw [ih]

theorem builtinType_eq_spec (id : String) :
    builtinType id = specBuiltinHeuristic id := by
  unfold builtinType specBuiltinHeuristic
  by_cases h1 : (strIncludes id "util" || strIncludes id "utils") = true <;>
    by_cases h2 : (strIncludes id "ui" || strIncludes id "component") = true <;>
      by_cases h3 : (strIncludes id "lib" || strIncludes id "library") = true <;>
        by_cases h4 : (strIncludes id "api" || strIncludes id "server") = true <;>
          by_cases h5 : (strIncludes id "router" || strIncludes id "route") = true <;>
            simp [h1, h2, h3, h4, h5]

theorem contains_true_iff (l : List String) (a : String) :
    l.contains a = true ↔ a ∈ l := by
  simp [List.contains]

theorem count_filter_neg {p : String → Bool} {a : String} {l : List String}
    (h : ¬p a = true) : (l.filter p).count a = 0 := by
  rw [List.count_eq_zero]
  intro hmem
  exact h (List.mem_filter.1 hmem).2

theorem dropWhile_dot {l : List Char} (h : '.' ∈ l) :
    ∃ t, l.dropWhile (fun c => !(c == '.')) = '.' :: t := by
  induction l with
  | nil => cases h
  | cons c l ih =>
    by_cases hc : c = '.'
    · subst hc
      exact ⟨l, by simp [List.dropWhile]⟩
    · have h' : '.' ∈ l := by
        rcases List.mem_cons.1 h with h0 | h0
        · exact absurd h0.symm hc
        · exact h0
      obtain ⟨t, ht⟩ := ih h'
      have hb : (!(c == '.')) = true := by simp [hc]
      exact ⟨t, by simp [List.dropWhile, hb, ht]⟩

theorem extOf_suffix {p e : String} (h : extOf p = some e) :
    ('.' :: e.data) <:+ p.data := by
  unfold extOf at h
  by_cases hdot : '.' ∈ p.data.reverse
  · simp only [hdot, if_true, ite_true, Option.some.injEq] at h
    obtain ⟨t, ht⟩ := dropWhile_dot hdot
    have hsplit := List.takeWhile_append_dropWhile
      (fun c => !(c == '.')) p.data.reverse
    rw [ht] at hsplit
    have he : e.data = (p.data.reverse.takeWhile (fun c => !(c == '.'))).reverse := by
      rw [← h]
    refine ⟨t.reverse, ?_⟩
    rw [he]
    conv_rhs => rw [← List.reverse_reverse p.data, ← hsplit]
    simp [List.reverse_append]
  · simp [hdot] at h

theorem suffix_imp_rebuild {p e : String} (h : extOf p = some e)
    (he : e = "js" ∨ e = "ts" ∨ e = "vue") : shouldRebuildFile p = true := by
  have hs := extOf_suffix h
  unfold shouldRebuildFile strIncludes
  rcases he with rfl | rfl | rfl
  · have hinf : (".js" : String).data <:+: p.data := by
      have hd : (".js" : String).data = '.' :: ("js" : String).data := rfl
      rw [hd]; exact hs.isInfix
    simp [hinf]
  · have hinf : (".ts" : String).data <:+: p.data := by
      have hd : (".ts" : String).data = '.' :: ("ts" : String).data := rfl
      rw [hd]; exact hs.isInfix
    simp [hinf]
  · have hinf : (".vue" : String).data <:+: p.data := by
      have hd : (".vue" : String).data = '.' :: ("vue" : String).data := rfl
      rw [hd]; exact hs.isInfix
    simp [hinf]

/-- C1 (amended): a declared package name (a string that is its own
extracted package root, as every valid npm name is) never appears in
the ghost list, regardless of import frequency; and every imported id
is kept in the ghost list with its full multiplicity exactly when its
extracted package root is undeclared — the detector neither dedups nor
replaces an id by its package name. -/
theorem galaxy_ghost_detection (pkg : Manifest) (importedIds : List String)
    (res : GhostResult)
    (hok : detectGhostPkgs (Except.ok pkg) importedIds = Except.ok res) :
    (∀ name, name ∈ declaredNames pkg → pkgRoot name.data = some name.data →
      name ∉ res.ghosts) ∧
    (∀ id, res.ghosts.count id =
      if isGhostId (declaredNames pkg) id then importedIds.count id else 0) := by
  rw [detectGhostPkgs_ok_eq] at hok
  obtain rfl := (Except.ok.inj hok).symm
  constructor
  · intro name hdecl hroot hmem
    have hghost : isGhostId (declaredNames pkg) name = true :=
      (List.mem_filter.1 hmem).2
    unfold isGhostId at hghost
    rw [hroot] at hghost
    have hcont : (declaredNames pkg).contains name = false := by
      simpa using hghost
    rw [(contains_true_iff (declaredNames pkg) name).2 hdecl] at hcont
    cases hcont
  · intro id
    by_cases hg : isGhostId (declaredNames pkg) id = true
    · simp [hg, List.count_filter hg]
    · simp only [hg, if_false, ite_false]
      exact count_filter_neg hg

/-- C1 counterexample: with an empty manifest, two distinct imported
ids of the undeclared package `left-pad` are both kept verbatim — the
package is represented twice in the ghost list and the bare name
`left-pad` does not appear exactly once. -/
theorem galaxy_ghost_multiplicity_cex :
    detectGhostPkgs (Except.ok ⟨[], []⟩) ["left-pad/a.js", "left-pad/b.js"] =
      Except.ok ⟨⟨[], []⟩, ["left-pad/a.js", "left-pad/b.js"]⟩ ∧
    List.count "left-pad" ["left-pad/a.js", "left-pad/b.js"] ≠ 1 ∧
    (["left-pad/a.js", "left-pad/b.js"].filter
      (fun g => pkgRoot g.data == some ("left-pad" : String).data)).length = 2 :=
  ⟨rfl, by decide, by decide⟩

/-- C1 witness: the spec's own scenario — manifest declaring `lodash`,
imports `lodash` and `left-pad` — where the theorem yields that
`lodash` is not reported. -/
theorem galaxy_ghost_detection_witness :
    "lodash" ∉ (["left-pad"] : List String) :=
  (galaxy_ghost_detection ⟨[("lodash", "^4.0.0")], []⟩ ["lodash", "left-pad"]
    ⟨⟨[("lodash", "^4.0.0")], []⟩, ["left-pad"]⟩ rfl).1 "lodash"
    (by simp [declaredNames]) rfl

/-- C2 (amended): when the manifest is absent or unparsable, the parse
error is not contained: it propagates out of ghost detection and the
whole graph build rejects with that error instead of completing with
an empty ghost set. -/
theorem galaxy_missing_manifest_propagates (rel : String → String)
    (stat : String → Option (Nat × Nat)) (registry : List RegistryEntry)
    (options : GalaxyOptions) (msg : String) :
    generateGraph rel stat registry options (Except.error msg) = Except.error msg :=
  generateGraph_error_eq rel stat registry options msg

/-- C2 counterexample: a concrete one-module build with a missing
manifest returns the read error and no snapshot at all, rather than a
snapshot with empty ghosts. -/
theorem galaxy_missing_manifest_cex :
    generateGraph (fun s => s) (fun _ => none) [⟨"a.ts", some []⟩]
      ⟨[], [], none, []⟩ (Except.error "ENOENT: package.json not found") =
    Except.error "ENOENT: package.json not found" := rfl

/-- C3: for every registry, alias and exclusion configuration, every
edge of a successfully built snapshot has a source id that is the id
of some node of the snapshot (nothing is claimed about targets). -/
theorem galaxy_edge_source_in_nodes (rel : String → String)
    (stat : String → Option (Nat × Nat)) (registry : List RegistryEntry)
    (options : GalaxyOptions) (manifestSrc : Except String Manifest)
    (g : GraphJSON)
    (hok : generateGraph rel stat registry options manifestSrc = Except.ok g)
    (e : GraphEdge) (he : e ∈ g.edges) :
    e.source ∈ g.nodes.map GraphNode.id := by
  cases manifestSrc with
  | error msg => rw [generateGraph_error_eq] at hok; cases hok
  | ok pkg =>
    rw [generateGraph_ok_eq] at hok
    have hg := Except.ok.inj hok
    have hnodes : g.nodes = classifyNodeTypes
        (calculateDepths
          (buildNodesEdges rel stat options.aliases options.exclude registry []).1
          (buildNodesEdges rel stat options.aliases options.exclude registry []).2
          options.maxDepth)
        options.customTypeRules := by rw [← hg]
    have hedges : g.edges =
        (buildNodesEdges rel stat options.aliases options.exclude registry []).2 := by
      rw [← hg]
    rw [hedges] at he
    rw [hnodes, classifyNodeTypes_map_id, calculateDepths_map_id]
    exact buildNodesEdges_edge_source rel stat options.aliases options.exclude
      registry [] e he

/-- C3 witness: a one-module build importing a module that has no node;
the edge's source `a.ts` is a node id of the snapshot. -/
theorem galaxy_edge_source_in_nodes_witness :
    ("a.ts" : String) ∈
      [GraphNode.mk "a.ts" 0 0 0 (some "other") none].map GraphNode.id :=
  galaxy_edge_source_in_nodes (fun s => s) (fun _ => none)
    [⟨"a.ts", some ["b.ts"]⟩] ⟨[], [], none, []⟩ (Except.ok ⟨[], []⟩)
    ⟨[⟨"a.ts", 0, 0, 0, some "other", none⟩], [⟨"a.ts", "b.ts"⟩], ["a.ts"]⟩
    rfl ⟨"a.ts", "b.ts"⟩ (by simp)

/-- C4: after depth computation every node targeted by no edge has
depth exactly 0, and every node's depth (a `Nat`, hence non-negative)
is at most the configured maximum when one is configured. -/
theorem galaxy_depth_root_zero_and_bounded (nodes : List GraphNode)
    (edges : List GraphEdge) (md : Option Nat) (n : GraphNode)
    (hn : n ∈ calculateDepths nodes edges md) :
    ((∀ e ∈ edges, e.target ≠ n.id) → n.depth = 0) ∧
    (∀ mdv, md = some mdv → n.depth ≤ mdv) :=
  calculateDepths_inv nodes edges md n hn

/-- C4 witness: in the two-node graph where `a` imports `b`, the node
`a` has no dependents and its computed depth is 0. -/
theorem galaxy_depth_root_zero_witness :
    (GraphNode.mk "a" 0 0 0 none none).depth = 0 :=
  (galaxy_depth_root_zero_and_bounded
    [⟨"a", 0, 0, 0, none, none⟩, ⟨"b", 0, 0, 0, none, none⟩]
    [⟨"a", "b"⟩] (some 5) ⟨"a", 0, 0, 0, none, none⟩ (by decide)).1 (by decide)

theorem buildNodesEdges_target_not_excluded (rel : String → String)
    (stat : String → Option (Nat × Nat)) (al : List (String × String))
    (exclude : List (String → Bool)) :
    ∀ registry seen e, e ∈ (buildNodesEdges rel stat al exclude registry seen).2 →
      shouldExclude e.target exclude = false := by
  intro registry
  induction registry with
  | nil => intro seen e he; simp [buildNodesEdges] at he
  | cons entry rest ih =>
    intro seen e he
    cases hinfo : entry.info with
    | none =>
      rw [show buildNodesEdges rel stat al exclude (entry :: rest) seen =
        buildNodesEdges rel stat al exclude rest seen by
          simp [buildNodesEdges, hinfo]] at he
      exact ih seen e he
    | some importedIds =>
      by_cases hexc : shouldExclude (applyAlias (rel entry.id) al) exclude
      · rw [show buildNodesEdges rel stat al exclude (entry :: rest) seen =
          buildNodesEdges rel stat al exclude rest seen by
            simp [buildNodesEdges, hinfo, hexc]] at he
        exact ih seen e he
      · by_cases hseen : applyAlias (rel entry.id) al ∈ seen
        · rw [show buildNodesEdges rel stat al exclude (entry :: rest) seen =
            buildNodesEdges rel stat al exclude rest seen by
              simp [buildNodesEdges, hinfo, hexc, hseen]] at he
          exact ih seen e he
        · simp only [buildNodesEdges, hinfo, hexc, hseen, Bool.false_eq_true,
            if_false, if_true, ite_false, ite_true] at he
          rcases List.mem_append.1 he with hnew | hrest
          · obtain ⟨dep, _, hsome⟩ := List.mem_filterMap.1 hnew
            by_cases ht : shouldExclude (applyAlias (rel dep) al) exclude
            · simp [ht] at hsome
            · simp only [ht, Bool.false_eq_true, if_false, ite_false] at hsome
              obtain rfl := Option.some.inj hsome
              simpa using ht
          · exact ih _ e hrest

theorem buildNodesEdges_emits (rel : String → String)
    (stat : String → Option (Nat × Nat)) (al : List (String × String))
    (exclude : List (String → Bool)) :
    ∀ pre entry post importedIds dep seen,
      entry.info = some importedIds →
      shouldExclude (applyAlias (rel entry.id) al) exclude = false →
      applyAlias (rel entry.id) al ∉ seen →
      (∀ e' ∈ pre, e'.info.isSome = true →
        shouldExclude (applyAlias (rel e'.id) al) exclude = false →
        applyAlias (rel e'.id) al ≠ applyAlias (rel entry.id) al) →
      dep ∈ importedIds →
      shouldExclude (applyAlias (rel dep) al) exclude = false →
      GraphEdge.mk (applyAlias (rel entry.id) al) (applyAlias (rel dep) al) ∈
        (buildNodesEdges rel stat al exclude (pre ++ entry :: post) seen).2 := by
  intro pre
  induction pre with
  | nil =>
    intro entry post importedIds dep seen hinfo hexc hseen hfirst hdep htgt
    rw [List.nil_append]
    have hexc' : ¬shouldExclude (applyAlias (rel entry.id) al) exclude = true := by
      simp [hexc]
    simp only [buildNodesEdges, hinfo, hexc', hseen, Bool.false_eq_true,
      if_false, if_true, ite_false, ite_true]
    refine List.mem_append.2 (Or.inl (List.mem_filterMap.2 ⟨dep, hdep, ?_⟩))
    simp [htgt]
  | cons e' pre' ih =>
    intro entry post importedIds dep seen hinfo hexc hseen hfirst hdep htgt
    have hfirst' : ∀ x ∈ pre', x.info.isSome = true →
        shouldExclude (applyAlias (rel x.id) al) exclude = false →
        applyAlias (rel x.id) al ≠ applyAlias (rel entry.id) al :=
      fun x hx => hfirst x (List.mem_cons_of_mem _ hx)
    rw [List.cons_append]
    cases hinfo' : e'.info with
    | none =>
      rw [show buildNodesEdges rel stat al exclude (e' :: (pre' ++ entry :: post)) seen =
        buildNodesEdges rel stat al exclude (pre' ++ entry :: post) seen by
          simp [buildNodesEdges, hinfo']]
      exact ih entry post importedIds dep seen hinfo hexc hseen hfirst' hdep htgt
    | some imps' =>
      by_cases hexc' : shouldExclude (applyAlias (rel e'.id) al) exclude
      · rw [show buildNodesEdges rel stat al exclude (e' :: (pre' ++ entry :: post)) seen =
          buildNodesEdges rel stat al exclude (pre' ++ entry :: post) seen by
            simp [buildNodesEdges, hinfo', hexc']]
        exact ih entry post importedIds dep seen hinfo hexc hseen hfirst' hdep htgt
      · by_cases hseen' : applyAlias (rel e'.id) al ∈ seen
        · rw [show buildNodesEdges rel stat al exclude (e' :: (pre' ++ entry :: post)) seen =
            buildNodesEdges rel stat al exclude (pre' ++ entry :: post) seen by
              simp [buildNodesEdges, hinfo', hexc', hseen']]
          exact ih entry post importedIds dep seen hinfo hexc hseen hfirst' hdep htgt
        · have hne : applyAlias (rel e'.id) al ≠ applyAlias (rel entry.id) al :=
            hfirst e' (List.mem_cons_self e' pre') (by simp [hinfo'])
              (by simp [hexc'])
          have hseen2 : applyAlias (rel entry.id) al ∉
              applyAlias (rel e'.id) al :: seen := by
            intro hmem
            rcases List.mem_cons.1 hmem with heq | hmem'
            · exact hne heq.symm
            · exact hseen hmem'
          simp only [buildNodesEdges, hinfo', hexc', hseen', Bool.false_eq_true,
            if_false, if_true, ite_false, ite_true]
          exact List.mem_append.2 (Or.inr
            (ih entry post importedIds dep _ hinfo hexc hseen2 hfirst' hdep htgt))

/-- C5 (amended): for every kept (non-excluded, first-encountered)
module, an edge is emitted per import target after identical
normalization, including targets that have no node — but targets
matching an exclusion pattern are skipped during the build, so no edge
of the built list has an excluded target. -/
theorem galaxy_edges_emitted_unless_excluded (rel : String → String)
    (stat : String → Option (Nat × Nat)) (al : List (String × String))
    (exclude : List (String → Bool)) (pre post : List RegistryEntry)
    (entry : RegistryEntry) (importedIds : List String) (dep : String)
    (hinfo : entry.info = some importedIds)
    (hexc : shouldExclude (applyAlias (rel entry.id) al) exclude = false)
    (hfirst : ∀ e' ∈ pre, e'.info.isSome = true →
      shouldExclude (applyAlias (rel e'.id) al) exclude = false →
      applyAlias (rel e'.id) al ≠ applyAlias (rel entry.id) al)
    (hdep : dep ∈ importedIds)
    (htgt : shouldExclude (applyAlias (rel dep) al) exclude = false) :
    GraphEdge.mk (applyAlias (rel entry.id) al) (applyAlias (rel dep) al) ∈
      (buildNodesEdges rel stat al exclude (pre ++ entry :: post) []).2 ∧
    ∀ e ∈ (buildNodesEdges rel stat al exclude (pre ++ entry :: post) []).2,
      shouldExclude e.target exclude = false :=
  ⟨buildNodesEdges_emits rel stat al exclude pre entry post importedIds dep []
      hinfo hexc (by simp) hfirst hdep htgt,
    fun e he => buildNodesEdges_target_not_excluded rel stat al exclude
      (pre ++ entry :: post) [] e he⟩

/-- C5 counterexample: module `a.ts` imports `b.ts` while the exclusion
configuration matches `b.ts`: the built edge list is empty — the edge
to the excluded target is dropped during the build, not retained. -/
theorem galaxy_excluded_target_edge_dropped_cex :
    (buildNodesEdges (fun s => s) (fun _ => none) []
      [fun s => s == "b.ts"] [⟨"a.ts", some ["b.ts"]⟩] []).2 = [] ∧
    GraphEdge.mk "a.ts" "b.ts" ∉
      (buildNodesEdges (fun s => s) (fun _ => none) []
        [fun s => s == "b.ts"] [⟨"a.ts", some ["b.ts"]⟩] []).2 :=
  ⟨rfl, by decide⟩

/-- C5 witness: with an exclusion matching only `c.ts`, module `a.ts`
importing the node-less target `b.ts` yields the retained edge
`a.ts → b.ts`. -/
theorem galaxy_edges_emitted_witness :
    GraphEdge.mk "a.ts" "b.ts" ∈
      (buildNodesEdges (fun s => s) (fun _ => none) []
        [fun s => s == "c.ts"] ([] ++ ⟨"a.ts", some ["b.ts"]⟩ :: []) []).2 :=
  (galaxy_edges_emitted_unless_excluded (fun s => s) (fun _ => none) []
    [fun s => s == "c.ts"] [] [] ⟨"a.ts", some ["b.ts"]⟩ ["b.ts"] "b.ts"
    rfl rfl (by simp) (by simp) rfl).1

/-- C6: classification tries the ordered custom rule list first and
returns the first match's category verbatim; otherwise the built-in
substring heuristics apply in the fixed order utility, then UI, then
library, and every remaining node — the legacy API/server and
router/route branches included — gets the default category `other`. -/
theorem galaxy_classification_spec (nodes : List GraphNode)
    (rules : List TypeRule) :
    classifyNodeTypes nodes rules = nodes.map (fun n =>
      { n with
        type := some (((rules.find? (fun r => r.pattern n.id)).map
          TypeRule.type).getD (specBuiltinHeuristic n.id)) }) := by
  unfold classifyNodeTypes
  refine List.map_congr_left (fun n _ => ?_)
  rw [applyRules_eq_find]
  cases hf : (rules.find? (fun r => r.pattern n.id)).map TypeRule.type with
  | none => simp [hf, builtinType_eq_spec]
  | some t => simp [hf]

/-- C7: alias normalization substitutes using only the first mapping
entry whose key is a leading match of the id — the substituted result
is not re-matched and later entries are ignored — and leaves the id
unchanged when no key matches; in particular the mapping `@ ↦ src`
sends `@/utils/format.ts` to `src/utils/format.ts`. -/
theorem galaxy_alias_first_match (id : String) (al : List (String × String)) :
    (applyAlias id al = match al.find? (fun kv => strStartsWith id kv.1) with
      | some kv => kv.2 ++ strDrop id (strLen kv.1)
      | none => id) ∧
    applyAlias "@/utils/format.ts" [("@", "src")] = "src/utils/format.ts" := by
  constructor
  · induction al with
    | nil => rfl
    | cons kv rest ih =>
      obtain ⟨key, value⟩ := kv
      by_cases h : strStartsWith id key
      · simp [applyAlias, List.find?, h]
      · simp only [applyAlias, List.find?, h, Bool.false_eq_true, if_false, ite_false]
        rw [ih]
  · rfl

/-- C8 (amended): the watcher decides rebuilds by a substring check of
the changed path against `.js`, `.ts` and `.vue`, not by its
extension: a recognized script/component extension still implies a
rebuild, but paths such as `vite.config.json` — whose extension is
outside the recognized set yet contain `.js` — rebuild as well. -/
theorem galaxy_watcher_rebuild_condition (p e : String)
    (hext : extOf p = some e) (he : e = "js" ∨ e = "ts" ∨ e = "vue") :
    shouldRebuildFile p = true ∧ shouldRebuildFile "vite.config.json" = true :=
  ⟨suffix_imp_rebuild hext he, by decide⟩

/-- C8 counterexample: `vite.config.json` has extension `json`, outside
the recognized source set, yet the watcher condition triggers a
rebuild because `.json` contains `.js` as a substring. -/
theorem galaxy_watcher_substring_cex :
    shouldRebuildFile "vite.config.json" = true ∧
    extOf "vite.config.json" = some "json" ∧
    ("json" : String) ∉ (["js", "ts", "vue"] : List String) := by
  refine ⟨by decide, by decide, by decide⟩

/-- C8 witness: a `.vue` component path rebuilds, and so does the
`.json` config path. -/
theorem galaxy_watcher_rebuild_witness :
    shouldRebuildFile "app.vue" = true ∧
    shouldRebuildFile "vite.config.json" = true :=
  galaxy_watcher_rebuild_condition "app.vue" "vue" (by decide) (by simp)

/-- C9: the memoized depth traversal terminates on every finite graph,
cycles included — the fuel `|idUniverse| + 1` is never exhausted, since
a node already entered is answered from the `depthMap` cache instead of
recursing — and on the two-node cycle `a ↔ b` it completes with depths
1 and 0. -/
theorem galaxy_depth_terminates (nodes : List GraphNode)
    (edges : List GraphEdge) (md : Option Nat) :
    (calculateDepthsO nodes edges md).isSome = true ∧
    calculateDepthsO [⟨"a", 0, 0, 0, none, none⟩, ⟨"b", 0, 0, 0, none, none⟩]
      [⟨"b", "a"⟩, ⟨"a", "b"⟩] none =
      some [⟨"a", 0, 0, 1, none, none⟩, ⟨"b", 0, 0, 0, none, none⟩] :=
  ⟨calculateDepthsO_isSome nodes edges md, by decide⟩

/-- C10: depth computation returns a list of the same length and order
preserving `id`, `size` and `mtime` of every node, rewriting only
`depth`; type classification likewise preserves `id`, `size`, `mtime`
and `depth` and rewrites only `type`. -/
theorem galaxy_annotation_frame (nodes : List GraphNode)
    (edges : List GraphEdge) (md : Option Nat) (rules : List TypeRule) :
    ((calculateDepths nodes edges md).length = nodes.length ∧
      ∀ i (h1 : i < (calculateDepths nodes edges md).length)
        (h2 : i < nodes.length),
        ((calculateDepths nodes edges md).get ⟨i, h1⟩).id =
          (nodes.get ⟨i, h2⟩).id ∧
        ((calculateDepths nodes edges md).get ⟨i, h1⟩).size =
          (nodes.get ⟨i, h2⟩).size ∧
        ((calculateDepths nodes edges md).get ⟨i, h1⟩).mtime =
          (nodes.get ⟨i, h2⟩).mtime) ∧
    ((classifyNodeTypes nodes rules).length = nodes.length ∧
      ∀ i (h1 : i < (classifyNodeTypes nodes rules).length)
        (h2 : i < nodes.length),
        ((classifyNodeTypes nodes rules).get ⟨i, h1⟩).id =
          (nodes.get ⟨i, h2⟩).id ∧
        ((classifyNodeTypes nodes rules).get ⟨i, h1⟩).size =
          (nodes.get ⟨i, h2⟩).size ∧
        ((classifyNodeTypes nodes rules).get ⟨i, h1⟩).mtime =
          (nodes.get ⟨i, h2⟩).mtime ∧
        ((classifyNodeTypes nodes rules).get ⟨i, h1⟩).depth =
          (nodes.get ⟨i, h2⟩).depth) := by
  obtain ⟨f, hf⟩ := calculateDepths_eq_map nodes edges md
  constructor
  · constructor
    · rw [hf, List.length_map]
    · intro i h1 h2
      simp [hf]
  · constructor
    · simp [classifyNodeTypes]
    · intro i h1 h2
      simp only [classifyNodeTypes, List.get_eq_getElem, List.getElem_map]
      cases happly : applyRules (nodes[i].id) rules <;> simp [happly]

/-- C10 witness: on a concrete one-node list, depth computation keeps
the node's id. -/
theorem galaxy_annotation_frame_witness :
    ((calculateDepths [⟨"a", 1, 2, 3, none, none⟩] [] none).get
      ⟨0, by decide⟩).id = "a" :=
  ((galaxy_annotation_frame [⟨"a", 1, 2, 3, none, none⟩] [] none []).1.2
    0 (by decide) (by decide)).1
